import Mathlib

/-!
Shallow embedding of the repository sources `src/crawl.py` and
`src/process_lol_data.py`, together with theorems settling the frozen
claims about them.

Modelling conventions:
* The remote API client (riotwatcher) is modelled as explicit oracle
  functions passed to each operation.  A call that raises `ApiError` is an
  oracle returning `none`.
* Python exceptions are modelled by `Except PyError`; each reachable raise
  site gets its own `PyError` constructor.
* Wall-clock time is modelled by a `clock : Nat → Int` giving the value of
  `time.time()` observed at the budget check after the n-th player, and a
  `curr_time : Int` for the start-of-run reading (`round(time.time() - 1)`).
  Times and the time limit carry `Int` values: the code only compares times
  and multiplies the limit by 3600, so the float subtleties of the source
  are irrelevant to every claim and integer instants suffice.
* Every remote call is recorded in an `ApiCall` trace so that claims about
  which calls are made (deduplication, fail-fast, no-call-before-error) are
  statable.  Loop counters that the code only prints (players processed)
  are surfaced in the model output.
* pandas DataFrames are modelled as Lean lists; CSV round-trips are elided
  and the tables are passed structurally.
-/

set_option synthInstance.maxSize 2000

instance instDecEqExcept {ε α : Type} [DecidableEq ε] [DecidableEq α] :
    DecidableEq (Except ε α) := fun a b =>
  match a, b with
  | Except.error e, Except.error f =>
    if h : e = f then isTrue (by rw [h])
    else isFalse (by intro hh; cases hh; exact h rfl)
  | Except.error _, Except.ok _ => isFalse (by intro h; cases h)
  | Except.ok _, Except.error _ => isFalse (by intro h; cases h)
  | Except.ok x, Except.ok y =>
    if h : x = y then isTrue (by rw [h])
    else isFalse (by intro hh; cases hh; exact h rfl)

/-- Python exceptions raised by the modelled code paths. -/
inductive PyError where
  | assertInvalidRegion
  | assertInvalidPlayerCount
  | assertInvalidTimeLimit
  | assertInvalidDate
  | assertInvalidNoiseRate
  | typeErrorNoneComparison
  | typeErrorUnpackNone
  | unboundLocalError
  | apiError
  | schemaKeyError
  | persistenceRaise
deriving DecidableEq, Repr

/-- One remote API call, as recorded in the call trace. -/
inductive ApiCall where
  | probe
  | listMatches (puuid : String)
  | getMatch (matchId : String)
deriving DecidableEq, Repr

/-- The region allow-list exactly as the source evaluates it: the Python
literal `['na1', 'euw1', 'eun1' 'kr']` (crawl.py lines 25 and 102) contains
adjacent string literals, which Python concatenates, so the list has three
elements. -/
def regionAllowList : List String := ["na1", "euw1", "eun1kr"]

/-- One participant of a match, as read from `match_info` (crawl.py
lines 214-222). -/
structure Participant where
  summonerName : String
  puuid : String
  summonerId : String
  championId : Int
  win : Bool
deriving DecidableEq, Repr

/-- The match detail returned by `watcher.match.by_id`. -/
structure MatchInfo where
  participants : List Participant
deriving DecidableEq, Repr

/-- A serialised field value of the flat per-match record. -/
inductive FieldVal where
  | s (v : String)
  | i (v : Int)
  | b (v : Bool)
deriving DecidableEq, Repr

/-- The flat `serialised_match_info` dictionary built per match. -/
abbrev SerialisedMatch := List (String × FieldVal)

/-- Serialisation loop of crawl.py lines 211-222: participant number `i`
(starting at 1) contributes the five `p{i}_*` fields. -/
def serialise_match_info (mi : MatchInfo) : SerialisedMatch :=
  (List.enumFrom 1 mi.participants).flatMap (fun p =>
    [("p" ++ toString p.1 ++ "_name", FieldVal.s p.2.summonerName),
     ("p" ++ toString p.1 ++ "_puuid", FieldVal.s p.2.puuid),
     ("p" ++ toString p.1 ++ "_summonerId", FieldVal.s p.2.summonerId),
     ("p" ++ toString p.1 ++ "_champId", FieldVal.i p.2.championId),
     ("p" ++ toString p.1 ++ "_win", FieldVal.b p.2.win)])

/-- The remote match API: `matchlist` models `watcher.match.matchlist_by_puuid`
(with the fixed window and count already applied) and `matchinfo` models
`watcher.match.by_id`; `none` models a raised `ApiError`. -/
structure CrawlOracle where
  matchlist : String → Option (List String)
  matchinfo : String → Option MatchInfo

/-- Inner candidate loop of `load_matches_from_player` (crawl.py
lines 200-225).  State: accumulated `player_match_data` (as an association
list), `searched_matches`, and the trace of detail calls made.  A failing
`by_id` call is the `none` branch: it records the attempted call and breaks
out of the loop, returning the data accumulated so far. -/
def sub_loop (mo : String → Option MatchInfo) :
    List String → List (String × SerialisedMatch) → List String → List ApiCall →
    List (String × SerialisedMatch) × List String × List ApiCall
  | [], pm, searched, tr => (pm, searched, tr)
  | c :: rest, pm, searched, tr =>
    if c ∈ searched then
      sub_loop mo rest pm searched tr
    else
      match mo c with
      | none => (pm, searched, tr ++ [ApiCall.getMatch c])
      | some mi =>
        sub_loop mo rest (pm ++ [(c, serialise_match_info mi)])
          (searched ++ [c]) (tr ++ [ApiCall.getMatch c])

/-- Whether the candidate loop of `load_matches_from_player` runs to the end
of the given candidate list without hitting the `break` on a failed detail
fetch. -/
def sub_loop_ok (mo : String → Option MatchInfo) :
    List String → List String → Bool
  | [], _ => true
  | c :: rest, searched =>
    if c ∈ searched then
      sub_loop_ok mo rest searched
    else
      match mo c with
      | none => false
      | some _ => sub_loop_ok mo rest (searched ++ [c])

/-- Model of `load_matches_from_player` (crawl.py lines 175-227).  When the
match listing fails, the Python function logs and executes a bare `return`,
i.e. it returns `None`; this is the `(none, _)` result.  Otherwise it
returns the pair of new match data and the updated searched list.  The
second component is the trace of API calls it made. -/
def load_matches_from_player (o : CrawlOracle) (puuid : String)
    (searched_matches : List String) :
    Option (List (String × SerialisedMatch) × List String) × List ApiCall :=
  match o.matchlist puuid with
  | none => (none, [ApiCall.listMatches puuid])
  | some ml =>
    let r := sub_loop o.matchinfo ml [] searched_matches []
    (some (r.1, r.2.1), ApiCall.listMatches puuid :: r.2.2)

/-- Python dict union `a | b`: keys of `a` in order with values overridden
by `b` where present, followed by the keys of `b` absent from `a`, in the
order of `b`. -/
def dictUnion (a b : List (String × SerialisedMatch)) :
    List (String × SerialisedMatch) :=
  a.map (fun p => match b.lookup p.1 with | some v => (p.1, v) | none => p)
    ++ b.filter (fun q => (a.lookup q.1).isNone)

/-- Main crawl loop of `load_matches` (crawl.py lines 142-156).  Processes
the players in order; the tuple unpacking of the `None` returned by a
failed listing raises `TypeError` (modelled by `typeErrorUnpackNone`).
After merging a sub-crawl the player counter is incremented and the
wall-clock budget is checked: `time.time() - curr_time >= time_limit*3600`
breaks out of the loop.  Output: the run result (match data plus the player
counter the code prints), the final searched list, and the call trace. -/
def crawl_loop (o : CrawlOracle) (b curr_time : Int) (clock : Nat → Int) :
    List String → List String → List (String × SerialisedMatch) → Nat →
    List ApiCall →
    Except PyError (List (String × SerialisedMatch) × Nat) × List String ×
      List ApiCall
  | [], searched, md, i, tr => (Except.ok (md, i), searched, tr)
  | puuid :: rest, searched, md, i, tr =>
    match load_matches_from_player o puuid searched with
    | (none, f) => (Except.error PyError.typeErrorUnpackNone, searched, tr ++ f)
    | (some (pm, s2), f) =>
      let md2 := dictUnion md pm
      if clock (i + 1) - curr_time ≥ b then
        (Except.ok (md2, i + 1), s2, tr ++ f)
      else
        crawl_loop o b curr_time clock rest s2 md2 (i + 1) (tr ++ f)

/-- Model of `load_matches` (crawl.py lines 84-173).  Arguments mirror the
source: `reg`, `date`, the player puuid sequence (the players/load_path
selection of lines 106-121 is collapsed to the resulting puuid column),
`time_limit` (the Python default is `None`), plus the oracles: `now` is the
`time.time()` read by the date assertion, `probeOk` the outcome of the
API-key status probe, `curr_time` and `clock` the wall-clock readings, and
`save` models `save_path`: `none` = no path, `some ok` = path given and the
write succeeds iff `ok`.  Assertion order follows lines 101-104: region,
then `time_limit > 0` (which on `None` is a `TypeError`), then the date.
A save failure is printed and the DataFrame is returned anyway
(lines 164-173). -/
def load_matches (reg : String) (date : Int) (player_puuids : List String)
    (time_limit : Option Int) (now : Int) (probeOk : Bool) (o : CrawlOracle)
    (curr_time : Int) (clock : Nat → Int) (save : Option Bool) :
    Except PyError (List (String × SerialisedMatch) × Nat) × List String ×
      List ApiCall :=
  if reg ∉ regionAllowList then
    (Except.error PyError.assertInvalidRegion, [], [])
  else
    match time_limit with
    | none => (Except.error PyError.typeErrorNoneComparison, [], [])
    | some tl =>
      if ¬ (tl > 0) then (Except.error PyError.assertInvalidTimeLimit, [], [])
      else if ¬ (date < now) then
        (Except.error PyError.assertInvalidDate, [], [])
      else if ¬ probeOk then
        (Except.error PyError.apiError, [], [ApiCall.probe])
      else
        let r := crawl_loop o (tl * 3600) curr_time clock player_puuids [] []
          0 [ApiCall.probe]
        match r.1 with
        | Except.error e => (Except.error e, r.2.1, r.2.2)
        | Except.ok mdi =>
          match save with
          | none => (Except.ok mdi, r.2.1, r.2.2)
          | some _ => (Except.ok mdi, r.2.1, r.2.2)

/-- Number of match-detail calls for a given match id in a trace. -/
def countGM (tr : List ApiCall) (id : String) : Nat :=
  (tr.filter (fun a => decide (a = ApiCall.getMatch id))).length

/-- One entry of a concatenated ladder listing (the fields of `summoner`
read in crawl.py lines 52-60). -/
structure LadderEntry where
  summonerId : String
  summonerName : String
  leaguePoints : Int
deriving DecidableEq, Repr

/-- The profile returned by `watcher.summoner.by_id`. -/
structure SummonerInfo where
  puuid : String
  accountId : String
deriving DecidableEq, Repr

/-- One row of the player DataFrame: the tuple appended in crawl.py
lines 58-60. -/
structure PlayerRow where
  puuid : String
  accountId : String
  summonerId : String
  summonerName : String
  leaguePoints : Int
deriving DecidableEq, Repr

/-- Profile-resolution loop of `load_players` (crawl.py lines 48-63).  The
except branch prints `summoner_info['summonerName']`, but `summoner_info`
is only assigned by a successful lookup; if no lookup has succeeded yet the
print raises `UnboundLocalError` and aborts the whole call.  With a prior
success the branch prints the stale name and continues (the `j += j`
counter update is a no-op).  `last` carries the latest successful lookup. -/
def lp_loop (by_id : String → Option SummonerInfo) :
    List LadderEntry → Option SummonerInfo → List PlayerRow →
    Except PyError (List PlayerRow)
  | [], _, acc => Except.ok acc
  | e :: rest, last, acc =>
    match by_id e.summonerId with
    | none =>
      match last with
      | none => Except.error PyError.unboundLocalError
      | some _ => lp_loop by_id rest last acc
    | some si =>
      lp_loop by_id rest (some si)
        (acc ++ [⟨si.puuid, si.accountId, e.summonerId, e.summonerName,
          e.leaguePoints⟩])

/-- Stable descending insertion of a row: the row is placed before the
first element with strictly smaller `leaguePoints`, hence after every
earlier row with equal points. -/
def insertDescLP (x : PlayerRow) : List PlayerRow → List PlayerRow
  | [] => [x]
  | y :: ys =>
    if y.leaguePoints < x.leaguePoints then x :: y :: ys
    else y :: insertDescLP x ys

/-- Descending sort by `leaguePoints` (crawl.py line 65 and again line 68).
Python `sorted(..., key=kv[4], reverse=True)` is a stable descending sort;
a stable sort under a fixed comparison is unique, so the stable insertion
sort below produces exactly the list the source produces. -/
def pySortDescLP (l : List PlayerRow) : List PlayerRow :=
  l.foldl (fun acc x => insertDescLP x acc) []

/-- Model of `load_players` (crawl.py lines 12-82).  `entries` is the
concatenation of the challenger, grandmaster and master listings
(line 48); the zip with `range(1, player_count + 1)` caps the iteration at
`player_count` entries.  `probeOk` is the API-key status probe, `by_id`
the profile oracle, and `save` is as in `load_matches`: a failed write is
printed and the DataFrame is returned on every path (lines 70-82). -/
def load_players (reg : String) (player_count : Int) (probeOk : Bool)
    (entries : List LadderEntry) (by_id : String → Option SummonerInfo)
    (save : Option Bool) : Except PyError (List PlayerRow) :=
  if reg ∉ regionAllowList then Except.error PyError.assertInvalidRegion
  else if ¬ (player_count > 0) then
    Except.error PyError.assertInvalidPlayerCount
  else if ¬ probeOk then Except.error PyError.apiError
  else
    match lp_loop by_id (entries.take player_count.toNat) none [] with
    | Except.error e => Except.error e
    | Except.ok rows =>
      let df := pySortDescLP rows
      match save with
      | none => Except.ok df
      | some _ => Except.ok df

/-- One participant slot of a raw match row: the five `p{i}_*` columns the
table builder reads. -/
structure Slot where
  name : String
  puuid : String
  summonerId : String
  champId : Int
  win : Bool
deriving DecidableEq, Repr

/-- A `(name, puuid, summonerId)` triple of the player directory. -/
structure Triple where
  name : String
  puuid : String
  summonerId : String
deriving DecidableEq, Repr

/-- The identity triple of a slot. -/
def slotTriple (s : Slot) : Triple := ⟨s.name, s.puuid, s.summonerId⟩

/-- The sentinel unknown-player row prepended by
process_lol_data.py line 54. -/
def unknownTriple : Triple := ⟨"<U>", "0", "0"⟩

/-- Keep-first deduplication with an explicit seen accumulator: the
semantics of pandas `drop_duplicates` (first occurrence kept, order
preserved). -/
def dedupFirstAux (seen : List Triple) : List Triple → List Triple
  | [] => []
  | t :: rest =>
    if t ∈ seen then dedupFirstAux seen rest
    else t :: dedupFirstAux (seen ++ [t]) rest

/-- Keep-first deduplication of a triple list. -/
def dedupFirst (l : List Triple) : List Triple := dedupFirstAux [] l

/-- Column-major concatenation of the ten per-slot identity columns
(process_lol_data.py lines 26-51): all rows of column `p1`, then all rows
of `p2`, and so on.  The incremental `concat` + `drop_duplicates` of the
source loop equals one keep-first dedup of this concatenation, applied by
`process_player_data_from_matches` below. -/
def combinedTriples (rows : List (List Slot)) : List Triple :=
  (List.range 10).flatMap (fun i =>
    rows.filterMap (fun r => (r.get? i).map slotTriple))

/-- Model of `process_player_data_from_matches` (process_lol_data.py
lines 10-72).  Rows are the raw match rows, each a list of its participant
slots; a row without all ten `p{1..10}_*` column groups raises `KeyError`
(lines 27-44), modelled by the length guard.  The directory is the sentinel
row prepended to the deduplicated concatenation; with `include_key` the key
column equals the row index, which the model leaves implicit as list
position.  A failed write is printed and then re-raised (lines 63-68), so
the computed table is not returned on that path. -/
def process_player_data_from_matches (rows : List (List Slot))
    (save : Option Bool) (include_key : Bool) :
    Except PyError (List Triple) :=
  if ¬ (rows.all (fun r => r.length = 10)) then
    Except.error PyError.schemaKeyError
  else
    let dir := unknownTriple :: dedupFirst (combinedTriples rows)
    match save with
    | none => Except.ok dir
    | some true => Except.ok dir
    | some false => Except.error PyError.persistenceRaise

/-- One processed slot of the processed match table.  `keys` lists, in
directory order, the key of every directory row whose `name` equals the
(possibly noised) slot name: the pandas join against the non-unique `name`
index attaches one output row per matching directory row, and an empty list
models the null key of an unmatched name. -/
structure ProcSlot where
  name : String
  keys : List Nat
  champId : Int
  champName : Option String
  win : Bool
deriving DecidableEq, Repr

/-- Keys (directory positions, starting at `k`) of the directory rows whose
name matches `nm`: the join of process_lol_data.py line 123 with the key
column of line 59. -/
def keysFor (player_data : List Triple) (nm : String) (k : Nat) : List Nat :=
  match player_data with
  | [] => []
  | t :: rest => (if t.name = nm then [k] else []) ++ keysFor rest nm (k + 1)

/-- Processing of one raw row (row index `ri`): per slot column `si`, noise
may overwrite the name with the sentinel token (line 120), then the name is
joined against the directory (line 123) and the champion name resolved
(line 127).  `sel si ri` tells whether the sample of column `si` selected
row `ri`. -/
def procRow (player_data : List Triple) (cm : Int → Option String)
    (sel : Nat → Nat → Bool) (ri : Nat) (r : List Slot) : List ProcSlot :=
  r.enum.map (fun p =>
    let nm := if sel p.1 ri then "<U>" else p.2.name
    { name := nm, keys := keysFor player_data nm 0, champId := p.2.champId,
      champName := cm p.2.champId, win := p.2.win })

/-- Model of `process_match_data` (process_lol_data.py lines 74-151).
`player_data` is the processed player directory (its `puuid`/`summonerId`
columns are dropped before the join, so only `name` and the positional key
matter).  `ddOk` is the data-dragon champion fetch of lines 98-107; `cm`
the resulting champion map; `sel` the random row sample of line 119, which
for `noise_rate = 0` selects nothing.  Missing `p{i}_*` columns raise
`KeyError` at the drop/reorder steps, modelled by the length guard.  A
failed write is printed and then re-raised (lines 143-147).  The noise rate
is a float in the source; the claims only exercise the endpoints of its
asserted range, so an integer value suffices. -/
def process_match_data (rows : List (List Slot)) (player_data : List Triple)
    (noise_rate : Int) (cm : Int → Option String) (ddOk : Bool)
    (sel : Nat → Nat → Bool) (save : Option Bool) :
    Except PyError (List (List ProcSlot)) :=
  if ¬ (0 ≤ noise_rate ∧ noise_rate ≤ 1) then
    Except.error PyError.assertInvalidNoiseRate
  else if ¬ ddOk then Except.error PyError.apiError
  else if ¬ (rows.all (fun r => r.length = 10)) then
    Except.error PyError.schemaKeyError
  else
    let tbl := rows.enum.map (fun p => procRow player_data cm sel p.1 p.2)
    match save with
    | none => Except.ok tbl
    | some true => Except.ok tbl
    | some false => Except.error PyError.persistenceRaise

theorem countGM_nil (id : String) : countGM [] id = 0 := rfl

theorem countGM_append (a b : List ApiCall) (id : String) :
    countGM (a ++ b) id = countGM a id + countGM b id := by
  simp [countGM, List.filter_append]

theorem countGM_getMatch (c id : String) :
    countGM [ApiCall.getMatch c] id = if id = c then 1 else 0 := by
  by_cases h : id = c
  · simp [countGM, List.filter, h]
  · have h2 : c ≠ id := fun hh => h hh.symm
    simp [countGM, List.filter, h, h2]

theorem countGM_listMatches (p id : String) :
    countGM [ApiCall.listMatches p] id = 0 := by
  simp [countGM, List.filter]

theorem countGM_probe (id : String) : countGM [ApiCall.probe] id = 0 := by
  simp [countGM, List.filter]

theorem countGM_cons (a : ApiCall) (tr : List ApiCall) (id : String) :
    countGM (a :: tr) id =
      (if a = ApiCall.getMatch id then 1 else 0) + countGM tr id := by
  by_cases h : a = ApiCall.getMatch id <;> simp [countGM, List.filter, h]
  omega

theorem sub_loop_acc (mo : String → Option MatchInfo) (cands : List String)
    (pm : List (String × SerialisedMatch)) (s : List String)
    (tr : List ApiCall) :
    sub_loop mo cands pm s tr =
      (pm ++ (sub_loop mo cands [] s []).1, (sub_loop mo cands [] s []).2.1,
       tr ++ (sub_loop mo cands [] s []).2.2) := by
  induction cands generalizing pm s tr with
  | nil => simp [sub_loop]
  | cons c rest ih =>
    by_cases hc : c ∈ s
    · simp only [sub_loop, if_pos hc]
      rw [ih pm s tr]
    · cases hmo : mo c with
      | none => simp [sub_loop, if_neg hc, hmo]
      | some mi =>
        simp only [sub_loop, if_neg hc, hmo, List.nil_append]
        rw [ih (pm ++ [(c, serialise_match_info mi)]) (s ++ [c])
            (tr ++ [ApiCall.getMatch c]),
          ih [(c, serialise_match_info mi)] (s ++ [c]) [ApiCall.getMatch c]]
        simp

theorem sub_loop_searched (mo : String → Option MatchInfo)
    (cands : List String) (s : List String) :
    (sub_loop mo cands [] s []).2.1 =
      s ++ ((sub_loop mo cands [] s []).1).map Prod.fst := by
  induction cands generalizing s with
  | nil => simp [sub_loop]
  | cons c rest ih =>
    by_cases hc : c ∈ s
    · simp only [sub_loop, if_pos hc]
      exact ih s
    · cases hmo : mo c with
      | none => simp [sub_loop, if_neg hc, hmo]
      | some mi =>
        simp only [sub_loop, if_neg hc, hmo, List.nil_append]
        rw [sub_loop_acc mo rest [(c, serialise_match_info mi)] (s ++ [c])
          [ApiCall.getMatch c]]
        simp only [List.map_append]
        rw [ih (s ++ [c])]
        simp

theorem sub_loop_nodup (mo : String → Option MatchInfo) (cands : List String)
    (s : List String) (h : s.Nodup) : (sub_loop mo cands [] s []).2.1.Nodup := by
  induction cands generalizing s with
  | nil => simpa [sub_loop] using h
  | cons c rest ih =>
    by_cases hc : c ∈ s
    · simp only [sub_loop, if_pos hc]
      exact ih s h
    · cases hmo : mo c with
      | none => simpa [sub_loop, if_neg hc, hmo] using h
      | some mi =>
        simp only [sub_loop, if_neg hc, hmo, List.nil_append]
        rw [sub_loop_acc mo rest [(c, serialise_match_info mi)] (s ++ [c])
          [ApiCall.getMatch c]]
        exact ih (s ++ [c]) (by simp [List.nodup_append, h, hc])

theorem sub_loop_count (mo : String → Option MatchInfo) (cands : List String)
    (s : List String) (id : String) (m : MatchInfo) (hm : mo id = some m) :
    (id ∈ s → countGM (sub_loop mo cands [] s []).2.2 id = 0)
    ∧ (id ∉ s → countGM (sub_loop mo cands [] s []).2.2 id =
        if id ∈ (sub_loop mo cands [] s []).2.1 then 1 else 0) := by
  induction cands generalizing s with
  | nil =>
    refine ⟨fun _ => by simp [sub_loop, countGM_nil], fun h => ?_⟩
    simp [sub_loop, countGM_nil, h]
  | cons c rest ih =>
    by_cases hc : c ∈ s
    · simp only [sub_loop, if_pos hc]
      exact ih s
    · cases hmo : mo c with
      | none =>
        have hne : id ≠ c := by
          intro hh
          rw [hh, hmo] at hm
          cases hm
        constructor
        · intro hin
          simp [sub_loop, if_neg hc, hmo, countGM_append, countGM_getMatch,
            hne, countGM_nil]
        · intro hnin
          simp [sub_loop, if_neg hc, hmo, countGM_append, countGM_getMatch,
            hne, countGM_nil, hnin]
      | some mi =>
        simp only [sub_loop, if_neg hc, hmo, List.nil_append]
        rw [sub_loop_acc mo rest [(c, serialise_match_info mi)] (s ++ [c])
          [ApiCall.getMatch c]]
        by_cases hid : id = c
        · subst hid
          have h1 : countGM (sub_loop mo rest [] (s ++ [id]) []).2.2 id = 0 :=
            (ih (s ++ [id])).1 (by simp)
          have hmem : id ∈ (sub_loop mo rest [] (s ++ [id]) []).2.1 := by
            rw [sub_loop_searched]
            simp
          refine ⟨fun hin => absurd hin hc, fun _ => ?_⟩
          simp [countGM_cons, h1, hmem]
        · have hcid : ¬ c = id := fun hh => hid hh.symm
          constructor
          · intro hin
            have h1 := (ih (s ++ [c])).1 (by simp [hin])
            simp [countGM_cons, hcid, h1]
          · intro hnin
            have hnin2 : id ∉ s ++ [c] := by simp [hnin, hid]
            have h2 := (ih (s ++ [c])).2 hnin2
            simp [countGM_cons, hcid, h2]

theorem sub_loop_trace (mo : String → Option MatchInfo) (cands : List String)
    (s : List String) (x : ApiCall)
    (hx : x ∈ (sub_loop mo cands [] s []).2.2) :
    ∃ c ∈ cands, x = ApiCall.getMatch c := by
  induction cands generalizing s with
  | nil => simp [sub_loop] at hx
  | cons c rest ih =>
    by_cases hc : c ∈ s
    · simp only [sub_loop, if_pos hc] at hx
      obtain ⟨d, hd, hxd⟩ := ih s hx
      exact ⟨d, List.mem_cons_of_mem _ hd, hxd⟩
    · cases hmo : mo c with
      | none =>
        simp only [sub_loop, if_neg hc, hmo, List.nil_append] at hx
        simp at hx
        exact ⟨c, List.mem_cons_self _ _, hx⟩
      | some mi =>
        simp only [sub_loop, if_neg hc, hmo, List.nil_append] at hx
        rw [sub_loop_acc mo rest [(c, serialise_match_info mi)] (s ++ [c])
          [ApiCall.getMatch c]] at hx
        simp only [List.cons_append, List.nil_append, List.mem_cons] at hx
        rcases hx with hx | hx
        · exact ⟨c, List.mem_cons_self _ _, hx⟩
        · obtain ⟨d, hd, hxd⟩ := ih (s ++ [c]) hx
          exact ⟨d, List.mem_cons_of_mem _ hd, hxd⟩

theorem lookup_eq_none_of_not_mem (l : List (String × SerialisedMatch))
    (k : String) (h : k ∉ l.map Prod.fst) : l.lookup k = none := by
  induction l with
  | nil => rfl
  | cons p rest ih =>
    simp only [List.map_cons, List.mem_cons, not_or] at h
    obtain ⟨h1, h2⟩ := h
    cases p with
    | mk k2 v =>
      have hb : (k == k2) = false := beq_eq_false_iff_ne.mpr h1
      simp only [List.lookup, hb]
      exact ih h2

theorem dictUnion_append (a b : List (String × SerialisedMatch))
    (h : ∀ k, k ∈ a.map Prod.fst → k ∉ b.map Prod.fst) :
    dictUnion a b = a ++ b := by
  unfold dictUnion
  have h1 : a.map
      (fun p => match b.lookup p.1 with | some v => (p.1, v) | none => p) = a := by
    rw [List.map_congr_left (g := id), List.map_id]
    intro p hp
    rw [lookup_eq_none_of_not_mem b p.1
      (h p.1 (List.mem_map_of_mem Prod.fst hp))]
    rfl
  have h2 : b.filter (fun q => (a.lookup q.1).isNone) = b := by
    rw [List.filter_eq_self]
    intro q hq
    have hqa : q.1 ∉ a.map Prod.fst := by
      intro hmem
      exact h q.1 hmem (List.mem_map_of_mem Prod.fst hq)
    rw [lookup_eq_none_of_not_mem a q.1 hqa]
    rfl
  rw [h1, h2]

theorem sub_loop_append_ok (mo : String → Option MatchInfo)
    (l2 : List String) :
    ∀ (l1 : List String) (s : List String), sub_loop_ok mo l1 s = true →
    sub_loop mo (l1 ++ l2) [] s [] =
      ((sub_loop mo l1 [] s []).1 ++
        (sub_loop mo l2 [] (sub_loop mo l1 [] s []).2.1 []).1,
       (sub_loop mo l2 [] (sub_loop mo l1 [] s []).2.1 []).2.1,
       (sub_loop mo l1 [] s []).2.2 ++
        (sub_loop mo l2 [] (sub_loop mo l1 [] s []).2.1 []).2.2) := by
  intro l1
  induction l1 with
  | nil => intro s _; simp [sub_loop]
  | cons c rest ih =>
    intro s hok
    by_cases hc : c ∈ s
    · simp only [List.cons_append, sub_loop, if_pos hc]
      simp only [sub_loop_ok, if_pos hc] at hok
      exact ih s hok
    · cases hmo : mo c with
      | none =>
        simp only [sub_loop_ok, if_neg hc, hmo] at hok
        cases hok
      | some mi =>
        simp only [sub_loop_ok, if_neg hc, hmo] at hok
        simp only [List.cons_append, sub_loop, if_neg hc, hmo, List.nil_append,
          List.append_eq]
        rw [sub_loop_acc mo (rest ++ l2) [(c, serialise_match_info mi)]
            (s ++ [c]) [ApiCall.getMatch c],
          sub_loop_acc mo rest [(c, serialise_match_info mi)] (s ++ [c])
            [ApiCall.getMatch c]]
        rw [ih (s ++ [c]) hok]
        simp

theorem crawl_loop_cons_none (o : CrawlOracle) (b curr : Int)
    (clock : Nat → Int) (p : String) (rest s : List String)
    (md : List (String × SerialisedMatch)) (i : Nat) (tr : List ApiCall)
    (hml : o.matchlist p = none) :
    crawl_loop o b curr clock (p :: rest) s md i tr =
      (Except.error PyError.typeErrorUnpackNone, s,
       tr ++ [ApiCall.listMatches p]) := by
  simp only [crawl_loop, load_matches_from_player, hml]

theorem crawl_loop_cons_some (o : CrawlOracle) (b curr : Int)
    (clock : Nat → Int) (p : String) (rest s : List String)
    (md : List (String × SerialisedMatch)) (i : Nat) (tr : List ApiCall)
    (ml : List String) (hml : o.matchlist p = some ml) :
    crawl_loop o b curr clock (p :: rest) s md i tr =
      if clock (i + 1) - curr ≥ b then
        (Except.ok (dictUnion md (sub_loop o.matchinfo ml [] s []).1, i + 1),
         (sub_loop o.matchinfo ml [] s []).2.1,
         tr ++ (ApiCall.listMatches p :: (sub_loop o.matchinfo ml [] s []).2.2))
      else
        crawl_loop o b curr clock rest (sub_loop o.matchinfo ml [] s []).2.1
          (dictUnion md (sub_loop o.matchinfo ml [] s []).1) (i + 1)
          (tr ++ (ApiCall.listMatches p ::
            (sub_loop o.matchinfo ml [] s []).2.2)) := by
  simp only [crawl_loop, load_matches_from_player, hml]

theorem crawl_loop_inv (o : CrawlOracle) (b curr : Int) (clock : Nat → Int) :
    ∀ (ps s : List String) (md : List (String × SerialisedMatch)) (i : Nat)
      (tr : List ApiCall),
    s.Nodup → md.map Prod.fst = s →
    (∀ id m, o.matchinfo id = some m →
      countGM tr id = if id ∈ s then 1 else 0) →
    (crawl_loop o b curr clock ps s md i tr).2.1.Nodup
    ∧ (∀ md2 i2,
        (crawl_loop o b curr clock ps s md i tr).1 = Except.ok (md2, i2) →
        md2.map Prod.fst = (crawl_loop o b curr clock ps s md i tr).2.1)
    ∧ (∀ id m, o.matchinfo id = some m →
        countGM (crawl_loop o b curr clock ps s md i tr).2.2 id =
          if id ∈ (crawl_loop o b curr clock ps s md i tr).2.1 then 1
          else 0) := by
  intro ps
  induction ps with
  | nil =>
    intro s md i tr hnd hkeys hcnt
    refine ⟨hnd, ?_, ?_⟩
    · intro md2 i2 h
      simp only [crawl_loop, Except.ok.injEq, Prod.mk.injEq] at h
      simp only [crawl_loop]
      rw [← h.1]
      exact hkeys
    · intro id m hm
      simp only [crawl_loop]
      exact hcnt id m hm
  | cons p rest ih =>
    intro s md i tr hnd hkeys hcnt
    cases hml : o.matchlist p with
    | none =>
      rw [crawl_loop_cons_none o b curr clock p rest s md i tr hml]
      refine ⟨hnd, ?_, ?_⟩
      · intro md2 i2 h
        simp at h
      · intro id m hm
        simp [countGM_append, countGM_listMatches, hcnt id m hm]
    | some ml =>
      have hs2 : (sub_loop o.matchinfo ml [] s []).2.1 =
          s ++ ((sub_loop o.matchinfo ml [] s []).1).map Prod.fst :=
        sub_loop_searched o.matchinfo ml s
      have hnd2 : (sub_loop o.matchinfo ml [] s []).2.1.Nodup :=
        sub_loop_nodup o.matchinfo ml s hnd
      have hdisj : ∀ k, k ∈ md.map Prod.fst →
          k ∉ ((sub_loop o.matchinfo ml [] s []).1).map Prod.fst := by
        rw [hkeys]
        rw [hs2] at hnd2
        rw [List.nodup_append] at hnd2
        exact fun k hk => hnd2.2.2 hk
      have hdu : dictUnion md (sub_loop o.matchinfo ml [] s []).1 =
          md ++ (sub_loop o.matchinfo ml [] s []).1 :=
        dictUnion_append md (sub_loop o.matchinfo ml [] s []).1 hdisj
      have hkeys2 : (dictUnion md (sub_loop o.matchinfo ml [] s []).1).map
          Prod.fst = (sub_loop o.matchinfo ml [] s []).2.1 := by
        rw [hdu, List.map_append, hkeys, ← hs2]
      have hcnt2 : ∀ id m, o.matchinfo id = some m →
          countGM (tr ++ (ApiCall.listMatches p ::
            (sub_loop o.matchinfo ml [] s []).2.2)) id =
          if id ∈ (sub_loop o.matchinfo ml [] s []).2.1 then 1 else 0 := by
        intro id m hm
        rw [countGM_append, countGM_cons]
        by_cases hin : id ∈ s
        · have hc0 := (sub_loop_count o.matchinfo ml s id m hm).1 hin
          have hmem : id ∈ (sub_loop o.matchinfo ml [] s []).2.1 := by
            rw [hs2]
            exact List.mem_append_left _ hin
          simp [hcnt id m hm, hin, hc0, hmem]
        · have hc1 := (sub_loop_count o.matchinfo ml s id m hm).2 hin
          simp [hcnt id m hm, hin, hc1]
      rw [crawl_loop_cons_some o b curr clock p rest s md i tr ml hml]
      by_cases hb : clock (i + 1) - curr ≥ b
      · rw [if_pos hb]
        refine ⟨hnd2, ?_, ?_⟩
        · intro md2 i2 h
          simp only [Except.ok.injEq, Prod.mk.injEq] at h
          rw [← h.1]
          exact hkeys2
        · intro id m hm
          exact hcnt2 id m hm
      · rw [if_neg hb]
        exact ih (sub_loop o.matchinfo ml [] s []).2.1
          (dictUnion md (sub_loop o.matchinfo ml [] s []).1) (i + 1)
          (tr ++ (ApiCall.listMatches p ::
            (sub_loop o.matchinfo ml [] s []).2.2)) hnd2 hkeys2 hcnt2

theorem crawl_loop_trace_listMatches (o : CrawlOracle) (b curr : Int)
    (clock : Nat → Int) :
    ∀ (ps s : List String) (md : List (String × SerialisedMatch)) (i : Nat)
      (tr : List ApiCall) (p : String),
    ApiCall.listMatches p ∈ (crawl_loop o b curr clock ps s md i tr).2.2 →
    ApiCall.listMatches p ∈ tr ∨ p ∈ ps := by
  intro ps
  induction ps with
  | nil =>
    intro s md i tr p h
    simp only [crawl_loop] at h
    exact Or.inl h
  | cons q rest ih =>
    intro s md i tr p h
    cases hml : o.matchlist q with
    | none =>
      rw [crawl_loop_cons_none o b curr clock q rest s md i tr hml] at h
      simp only [List.mem_append, List.mem_singleton] at h
      rcases h with h | h
      · exact Or.inl h
      · simp only [ApiCall.listMatches.injEq] at h
        subst h
        exact Or.inr (List.mem_cons_self _ _)
    | some ml =>
      rw [crawl_loop_cons_some o b curr clock q rest s md i tr ml hml] at h
      by_cases hb : clock (i + 1) - curr ≥ b
      · rw [if_pos hb] at h
        simp only [List.mem_append, List.mem_cons] at h
        rcases h with h | h | h
        · exact Or.inl h
        · simp only [ApiCall.listMatches.injEq] at h
          subst h
          exact Or.inr (List.mem_cons_self _ _)
        · obtain ⟨c, _, hx⟩ := sub_loop_trace o.matchinfo ml s _ h
          cases hx
      · rw [if_neg hb] at h
        rcases ih _ _ _ _ p h with h | h
        · simp only [List.mem_append, List.mem_cons] at h
          rcases h with h | h | h
          · exact Or.inl h
          · simp only [ApiCall.listMatches.injEq] at h
            subst h
            exact Or.inr (List.mem_cons_self _ _)
          · obtain ⟨c, _, hx⟩ := sub_loop_trace o.matchinfo ml s _ h
            cases hx
        · exact Or.inr (List.mem_cons_of_mem _ h)

theorem crawl_loop_budget_take (o : CrawlOracle) (b curr : Int)
    (clock : Nat → Int) (k : Nat) (hat : clock k - curr ≥ b)
    (hbefore : ∀ j, 1 ≤ j → j < k → clock j - curr < b) :
    ∀ (ps s : List String) (md : List (String × SerialisedMatch)) (i : Nat)
      (tr : List ApiCall),
    i < k → k ≤ i + ps.length →
    (∀ p ∈ ps.take (k - i), o.matchlist p ≠ none) →
    crawl_loop o b curr clock ps s md i tr =
      crawl_loop o b curr clock (ps.take (k - i)) s md i tr
    ∧ ∃ md2 s2 tr2, crawl_loop o b curr clock ps s md i tr =
        (Except.ok (md2, k), s2, tr2) := by
  intro ps
  induction ps with
  | nil =>
    intro s md i tr hik hki _
    simp at hki
    omega
  | cons q rest ih =>
    intro s md i tr hik hki hlist
    obtain ⟨m, hm⟩ : ∃ m, k - i = m + 1 := ⟨k - i - 1, by omega⟩
    have htake : (q :: rest).take (k - i) = q :: rest.take m := by
      rw [hm, List.take_succ_cons]
    rw [htake] at hlist ⊢
    have hq : o.matchlist q ≠ none := hlist q (List.mem_cons_self _ _)
    cases hml : o.matchlist q with
    | none => exact absurd hml hq
    | some ml =>
      rw [crawl_loop_cons_some o b curr clock q rest s md i tr ml hml,
        crawl_loop_cons_some o b curr clock q (rest.take m) s md i tr ml hml]
      by_cases hieq : i + 1 = k
      · have hb : clock (i + 1) - curr ≥ b := by rw [hieq]; exact hat
        simp only [if_pos hb]
        exact ⟨trivial, _, _, _, by rw [hieq]⟩
      · have hlt : i + 1 < k := by omega
        have hb : ¬ clock (i + 1) - curr ≥ b := by
          have := hbefore (i + 1) (by omega) hlt
          omega
        simp only [if_neg hb]
        have hmk : m = k - (i + 1) := by omega
        have hlist2 : ∀ p ∈ rest.take (k - (i + 1)), o.matchlist p ≠ none := by
          intro p hp
          refine hlist p (List.mem_cons_of_mem _ ?_)
          rw [hmk]
          exact hp
        have hrec := ih (sub_loop o.matchinfo ml [] s []).2.1
          (dictUnion md (sub_loop o.matchinfo ml [] s []).1) (i + 1)
          (tr ++ (ApiCall.listMatches q ::
            (sub_loop o.matchinfo ml [] s []).2.2)) hlt
          (by simp at hki ⊢; omega) hlist2
        rw [hmk]
        exact hrec

theorem mem_insertDescLP (x y : PlayerRow) (l : List PlayerRow)
    (h : y ∈ insertDescLP x l) : y = x ∨ y ∈ l := by
  induction l with
  | nil => simpa [insertDescLP] using h
  | cons z zs ih =>
    by_cases hz : z.leaguePoints < x.leaguePoints
    · simp only [insertDescLP, if_pos hz, List.mem_cons] at h
      rcases h with h | h | h
      · exact Or.inl h
      · exact Or.inr (by simp [h])
      · exact Or.inr (List.mem_cons_of_mem _ h)
    · simp only [insertDescLP, if_neg hz, List.mem_cons] at h
      rcases h with h | h
      · exact Or.inr (by simp [h])
      · rcases ih h with h2 | h2
        · exact Or.inl h2
        · exact Or.inr (List.mem_cons_of_mem _ h2)

theorem insertDescLP_sorted (x : PlayerRow) (l : List PlayerRow)
    (h : l.Pairwise (fun a b => b.leaguePoints ≤ a.leaguePoints)) :
    (insertDescLP x l).Pairwise
      (fun a b => b.leaguePoints ≤ a.leaguePoints) := by
  induction l with
  | nil => simp [insertDescLP]
  | cons z zs ih =>
    rw [List.pairwise_cons] at h
    obtain ⟨hz, hzs⟩ := h
    by_cases hlt : z.leaguePoints < x.leaguePoints
    · simp only [insertDescLP, if_pos hlt]
      rw [List.pairwise_cons]
      refine ⟨?_, by rw [List.pairwise_cons]; exact ⟨hz, hzs⟩⟩
      intro y hy
      rcases List.mem_cons.mp hy with rfl | hy2
      · omega
      · have := hz y hy2
        omega
    · simp only [insertDescLP, if_neg hlt]
      rw [List.pairwise_cons]
      refine ⟨?_, ih hzs⟩
      intro y hy
      rcases mem_insertDescLP x y zs hy with rfl | hy2
      · omega
      · exact hz y hy2

theorem pySortDescLP_sorted_aux (l : List PlayerRow) :
    ∀ acc : List PlayerRow,
    acc.Pairwise (fun a b => b.leaguePoints ≤ a.leaguePoints) →
    (l.foldl (fun a x => insertDescLP x a) acc).Pairwise
      (fun a b => b.leaguePoints ≤ a.leaguePoints) := by
  induction l with
  | nil => intro acc h; simpa using h
  | cons x xs ih =>
    intro acc h
    exact ih _ (insertDescLP_sorted x acc h)

theorem pySortDescLP_sorted (l : List PlayerRow) :
    (pySortDescLP l).Pairwise
      (fun a b => b.leaguePoints ≤ a.leaguePoints) :=
  pySortDescLP_sorted_aux l [] (by simp)

theorem keysFor_ge (l : List Triple) (nm : String) :
    ∀ (k n : Nat), n ∈ keysFor l nm k → k ≤ n := by
  induction l with
  | nil =>
    intro k n h
    simp [keysFor] at h
  | cons t rest ih =>
    intro k n h
    simp only [keysFor] at h
    rcases List.mem_append.mp h with h1 | h2
    · by_cases ht : t.name = nm
      · simp [ht] at h1
        omega
      · simp [ht] at h1
    · have := ih (k + 1) n h2
      omega

theorem keysFor_ne_nil (l : List Triple) (nm : String) :
    ∀ k : Nat, (∃ t ∈ l, t.name = nm) → keysFor l nm k ≠ [] := by
  induction l with
  | nil =>
    intro k h
    obtain ⟨t, ht, _⟩ := h
    simp at ht
  | cons t rest ih =>
    intro k h
    obtain ⟨u, hu, hname⟩ := h
    simp only [keysFor]
    rcases List.mem_cons.mp hu with rfl | hu2
    · simp [hname]
    · by_cases ht : t.name = nm
      · simp [ht]
      · simp only [if_neg ht, List.nil_append]
        exact ih (k + 1) ⟨u, hu2, hname⟩

theorem keysFor_head_cons (t : Triple) (rest : List Triple) (nm : String)
    (h : t.name = nm) : (keysFor (t :: rest) nm 0).head? = some 0 := by
  simp [keysFor, h]

theorem zero_not_mem_keysFor_cons (t : Triple) (rest : List Triple)
    (nm : String) (h : ¬ t.name = nm) : 0 ∉ keysFor (t :: rest) nm 0 := by
  simp only [keysFor, if_neg h, List.nil_append]
  intro hmem
  have := keysFor_ge rest nm 1 0 hmem
  omega

theorem mem_dedupFirstAux (x : Triple) :
    ∀ (l seen : List Triple),
    x ∈ dedupFirstAux seen l ↔ x ∈ l ∧ x ∉ seen := by
  intro l
  induction l with
  | nil => intro seen; simp [dedupFirstAux]
  | cons t rest ih =>
    intro seen
    by_cases ht : t ∈ seen
    · rw [show dedupFirstAux seen (t :: rest) = dedupFirstAux seen rest from
        by simp [dedupFirstAux, ht]]
      rw [ih seen]
      constructor
      · rintro ⟨h1, h2⟩
        exact ⟨List.mem_cons_of_mem _ h1, h2⟩
      · rintro ⟨h1, h2⟩
        rcases List.mem_cons.mp h1 with rfl | h3
        · exact absurd ht h2
        · exact ⟨h3, h2⟩
    · rw [show dedupFirstAux seen (t :: rest) =
          t :: dedupFirstAux (seen ++ [t]) rest from
        by simp [dedupFirstAux, ht]]
      constructor
      · intro h
        rcases List.mem_cons.mp h with rfl | h2
        · exact ⟨List.mem_cons_self _ _, ht⟩
        · rw [ih (seen ++ [t])] at h2
          obtain ⟨h3, h4⟩ := h2
          exact ⟨List.mem_cons_of_mem _ h3,
            fun hx => h4 (List.mem_append_left _ hx)⟩
      · rintro ⟨h1, h2⟩
        rcases List.mem_cons.mp h1 with rfl | h3
        · exact List.mem_cons_self _ _
        · by_cases hxt : x = t
          · subst hxt
            exact List.mem_cons_self _ _
          · refine List.mem_cons_of_mem _ ?_
            rw [ih (seen ++ [t])]
            exact ⟨h3, by simp [h2, hxt]⟩

theorem mem_dedupFirst (x : Triple) (l : List Triple) (h : x ∈ l) :
    x ∈ dedupFirst l := by
  unfold dedupFirst
  rw [mem_dedupFirstAux]
  simp [h]

theorem mem_combinedTriples (rows : List (List Slot)) (r : List Slot)
    (hr : r ∈ rows) (i : Nat) (s : Slot) (hi : r.get? i = some s)
    (hlt : i < 10) : slotTriple s ∈ combinedTriples rows := by
  unfold combinedTriples
  rw [List.mem_flatMap]
  refine ⟨i, List.mem_range.mpr hlt, ?_⟩
  rw [List.mem_filterMap]
  exact ⟨r, hr, by rw [hi]; rfl⟩

theorem enumFrom_map_snd_fun {α β : Type} (f : α → β) :
    ∀ (n : Nat) (l : List α),
    (List.enumFrom n l).map (fun p => f p.2) = l.map f := by
  intro n l
  induction l generalizing n with
  | nil => rfl
  | cons a as ih => simp [List.enumFrom_cons, ih]

theorem procRow_noNoise (dir : List Triple) (cm : Int → Option String)
    (ri : Nat) (r : List Slot) :
    procRow dir cm (fun _ _ => false) ri r =
      r.map (fun s => (⟨s.name, keysFor dir s.name 0, s.champId,
        cm s.champId, s.win⟩ : ProcSlot)) := by
  unfold procRow
  have hfun : (fun (p : Nat × Slot) =>
      (⟨if (fun _ _ => false) p.1 ri then "<U>" else p.2.name,
        keysFor dir (if (fun _ _ => false) p.1 ri then "<U>" else p.2.name) 0,
        p.2.champId, cm p.2.champId, p.2.win⟩ : ProcSlot))
      = (fun (p : Nat × Slot) =>
        (⟨p.2.name, keysFor dir p.2.name 0, p.2.champId, cm p.2.champId,
          p.2.win⟩ : ProcSlot)) := by
    funext p
    simp
  rw [hfun]
  exact enumFrom_map_snd_fun
    (fun s => (⟨s.name, keysFor dir s.name 0, s.champId, cm s.champId,
      s.win⟩ : ProcSlot)) 0 r

theorem processTbl_noNoise (dir : List Triple) (cm : Int → Option String)
    (rows : List (List Slot)) :
    rows.enum.map (fun p => procRow dir cm (fun _ _ => false) p.1 p.2) =
      rows.map (fun r => r.map (fun s => (⟨s.name, keysFor dir s.name 0,
        s.champId, cm s.champId, s.win⟩ : ProcSlot))) := by
  have h1 : rows.enum.map (fun p => procRow dir cm (fun _ _ => false) p.1 p.2)
      = rows.enum.map (fun p => p.2.map (fun s => (⟨s.name,
        keysFor dir s.name 0, s.champId, cm s.champId, s.win⟩ : ProcSlot))) :=
    List.map_congr_left (fun p _ => procRow_noNoise dir cm p.1 p.2)
  rw [h1]
  exact enumFrom_map_snd_fun
    (fun r => r.map (fun s => (⟨s.name, keysFor dir s.name 0, s.champId,
      cm s.champId, s.win⟩ : ProcSlot))) 0 rows

theorem match_save_id (save : Option Bool)
    (r : Except PyError (List (String × SerialisedMatch) × Nat) ×
      List String × List ApiCall) :
    (match r.1 with
     | Except.error e => (Except.error e, r.2.1, r.2.2)
     | Except.ok mdi =>
       match save with
       | none => (Except.ok mdi, r.2.1, r.2.2)
       | some _ => (Except.ok mdi, r.2.1, r.2.2)) = r := by
  obtain ⟨r1, r2, r3⟩ := r
  cases r1 <;> cases save <;> rfl

theorem load_matches_run (reg : String) (date : Int) (ps : List String)
    (tl : Int) (now : Int) (o : CrawlOracle) (curr : Int)
    (clock : Nat → Int) (save : Option Bool)
    (hreg : reg ∈ regionAllowList) (htl : tl > 0) (hdate : date < now) :
    load_matches reg date ps (some tl) now true o curr clock save =
      crawl_loop o (tl * 3600) curr clock ps [] [] 0 [ApiCall.probe] := by
  simp only [load_matches]
  rw [if_neg (not_not_intro hreg), if_neg (not_not_intro htl),
    if_neg (not_not_intro hdate), if_neg (by simp)]
  generalize crawl_loop o (tl * 3600) curr clock ps [] [] 0 [ApiCall.probe]
    = r
  exact match_save_id save r

/-- C4: the claim states that when listing the candidate match ids for one
player fails entirely, that player is logged and skipped and the run
continues with the remaining players.  The code instead executes a bare
`return` (crawl.py line 196), so `load_matches_from_player` returns `None`
and the tuple unpacking at crawl.py line 144 raises `TypeError`, aborting
the whole run.  Evaluated at the failing input: players A and B where the
listing for A fails, the run stops with the unpack `TypeError` right after
the probe and the single listing call, and player B is never touched. -/
theorem claim_c4_listing_failure_aborts_run :
    load_matches "na1" 0 ["A", "B"] (some 1) 1 true
      ⟨fun p => if p = "A" then none else some [], fun _ => none⟩ 0
      (fun _ => 0) none
      = (Except.error PyError.typeErrorUnpackNone, [],
         [ApiCall.probe, ApiCall.listMatches "A"]) := by decide

/-- C5: the claim states that every per-entry profile-resolution failure in
`load_players` is logged and skipped without aborting the loop.  The except
branch (crawl.py line 54) prints `summoner_info`, a variable only assigned
by a successful lookup, so a failure before any success raises
`UnboundLocalError` and aborts the call: first conjunct.  A failure after a
success is indeed skipped (it prints the stale name) and the loader returns
the successfully resolved rows: second conjunct. -/
theorem claim_c5_first_entry_failure_crashes :
    load_players "na1" 2 true [⟨"s1", "P1", 10⟩, ⟨"s2", "P2", 20⟩]
      (fun _ => none) none = Except.error PyError.unboundLocalError
    ∧ load_players "na1" 2 true [⟨"s1", "P1", 10⟩, ⟨"s2", "P2", 20⟩]
      (fun s => if s = "s2" then none else some ⟨"pu" ++ s, "ac" ++ s⟩) none
      = Except.ok [⟨"pus1", "acs1", "s1", "P1", 10⟩] :=
  ⟨by decide, by decide⟩

/-- C6: the claim states the region check accepts exactly na1, euw1, eun1
and kr.  The Python list literal `['na1', 'euw1', 'eun1' 'kr']` (crawl.py
lines 25 and 102) concatenates the adjacent literals, so the code rejects
`kr` and `eun1` with the invalid-region assertion and accepts the
unintended string `eun1kr`, in both `load_players` and `load_matches`. -/
theorem claim_c6_region_allowlist_eval :
    load_players "kr" 1 true [] (fun _ => none) none
      = Except.error PyError.assertInvalidRegion
    ∧ load_players "eun1" 1 true [] (fun _ => none) none
      = Except.error PyError.assertInvalidRegion
    ∧ load_players "eun1kr" 1 true [] (fun _ => none) none = Except.ok []
    ∧ load_players "na1" 1 true [] (fun _ => none) none = Except.ok []
    ∧ load_players "euw1" 1 true [] (fun _ => none) none = Except.ok []
    ∧ (load_matches "kr" 0 [] (some 1) 1 true ⟨fun _ => none, fun _ => none⟩
        0 (fun _ => 0) none).1 = Except.error PyError.assertInvalidRegion
    ∧ (load_matches "eun1" 0 [] (some 1) 1 true
        ⟨fun _ => none, fun _ => none⟩ 0 (fun _ => 0) none).1
      = Except.error PyError.assertInvalidRegion
    ∧ (load_matches "eun1kr" 0 [] (some 1) 1 true
        ⟨fun _ => some [], fun _ => none⟩ 0 (fun _ => 0) none).1
      = Except.ok ([], 0) :=
  ⟨by decide, by decide, by decide, by decide, by decide, by decide,
   by decide, by decide⟩

/-- C10, counterexample: the claim asserts that omitting `time_limit`
raises at the time-limit validation (the comparison `None > 0`) for ALL
values of the other arguments.  With an invalid region string the call
raises earlier, at the region assertion of crawl.py line 102, not at the
time-limit comparison of line 103. -/
theorem claim_c10_counterexample :
    (load_matches "zz" 0 ["A"] none 1 true ⟨fun _ => none, fun _ => none⟩ 0
      (fun _ => 0) none).1 = Except.error PyError.assertInvalidRegion
    ∧ PyError.assertInvalidRegion ≠ PyError.typeErrorNoneComparison := by
  decide

/-- C10, amended: for every call of `load_matches` that omits `time_limit`,
the call raises before any remote call is made (the trace is empty) and
never produces a result; when the region passes the (as-coded) region
check, the exception is precisely the `TypeError` of the comparison
`None > 0` at the time-limit validation, before any player data is read. -/
theorem claim_c10_time_limit_none_amended (reg : String) (date : Int)
    (ps : List String) (now : Int) (probeOk : Bool) (o : CrawlOracle)
    (curr : Int) (clock : Nat → Int) (save : Option Bool) :
    (reg ∈ regionAllowList →
      load_matches reg date ps none now probeOk o curr clock save
        = (Except.error PyError.typeErrorNoneComparison, [], []))
    ∧ (∃ e, (load_matches reg date ps none now probeOk o curr clock save).1
        = Except.error e)
    ∧ (load_matches reg date ps none now probeOk o curr clock save).2.2
        = [] := by
  by_cases hreg : reg ∈ regionAllowList
  · have h : load_matches reg date ps none now probeOk o curr clock save
        = (Except.error PyError.typeErrorNoneComparison, [], []) := by
      simp only [load_matches]
      rw [if_neg (not_not_intro hreg)]
    exact ⟨fun _ => h, ⟨_, by rw [h]⟩, by rw [h]⟩
  · have h : load_matches reg date ps none now probeOk o curr clock save
        = (Except.error PyError.assertInvalidRegion, [], []) := by
      simp only [load_matches]
      rw [if_pos hreg]
    exact ⟨fun hc => absurd hc hreg, ⟨_, by rw [h]⟩, by rw [h]⟩

/-- C10, witness for the amended theorem: at region na1 with every other
argument concrete, the call with `time_limit` omitted returns exactly the
`None > 0` TypeError with an empty call trace. -/
theorem claim_c10_witness :
    "na1" ∈ regionAllowList
    ∧ load_matches "na1" 0 ["A"] none 1 true ⟨fun _ => none, fun _ => none⟩
        0 (fun _ => 0) none
      = (Except.error PyError.typeErrorNoneComparison, [], []) :=
  ⟨by decide, (claim_c10_time_limit_none_amended "na1" 0 ["A"] 1 true
    ⟨fun _ => none, fun _ => none⟩ 0 (fun _ => 0) none).1 (by decide)⟩

/-- C7, counterexample: the claim states that for every table-computing
operation given a save path, a write failure is non-fatal and the computed
table is still returned.  For `process_player_data_from_matches` the except
branch re-raises (process_lol_data.py line 68): on the empty row set with a
failing write the call returns the persistence error, not the computed
directory (which would be the sentinel row alone). -/
theorem claim_c7_counterexample :
    process_player_data_from_matches [] (some false) true
      = Except.error PyError.persistenceRaise
    ∧ (Except.error PyError.persistenceRaise : Except PyError (List Triple))
      ≠ Except.ok [⟨"<U>", "0", "0"⟩] := by decide

/-- C7, amended: a save failure is non-fatal only in crawl.py:
`load_players` and `load_matches` print the failure and return the computed
DataFrame exactly as on a successful save, while
`process_player_data_from_matches` and `process_match_data` print and then
re-raise (process_lol_data.py lines 66-68 and 145-147), so they end in an
error and the computed table is not returned. -/
theorem claim_c7_save_failure_amended (reg : String) (pc : Int)
    (probeOk : Bool) (entries : List LadderEntry)
    (by_id : String → Option SummonerInfo) (reg2 : String) (date : Int)
    (ps : List String) (tl : Option Int) (now : Int) (probe2 : Bool)
    (o : CrawlOracle) (curr : Int) (clock : Nat → Int)
    (rows : List (List Slot)) (dir : List Triple) (cm : Int → Option String)
    (sel : Nat → Nat → Bool) (ik : Bool) :
    load_players reg pc probeOk entries by_id (some false)
      = load_players reg pc probeOk entries by_id (some true)
    ∧ load_matches reg2 date ps tl now probe2 o curr clock (some false)
      = load_matches reg2 date ps tl now probe2 o curr clock (some true)
    ∧ (∃ e, process_player_data_from_matches rows (some false) ik
        = Except.error e)
    ∧ (∃ e, process_match_data rows dir 0 cm true sel (some false)
        = Except.error e) := by
  refine ⟨?_, ?_, ?_, ?_⟩
  · simp only [load_players]
  · simp only [load_matches]
  · simp only [process_player_data_from_matches]
    split_ifs
    · exact ⟨_, rfl⟩
    · exact ⟨_, rfl⟩
  · simp only [process_match_data]
    rw [if_neg (by norm_num), if_neg (by simp)]
    split_ifs
    · exact ⟨_, rfl⟩
    · exact ⟨_, rfl⟩

/-- C9: for every region, player count, ladder and profile oracle, any
player sequence returned by `load_players` is sorted in descending order of
`leaguePoints`, regardless of the order of the concatenated tier
listings. -/
theorem claim_c9_sorted_desc (reg : String) (pc : Int) (probeOk : Bool)
    (entries : List LadderEntry) (by_id : String → Option SummonerInfo)
    (save : Option Bool) (res : List PlayerRow)
    (h : load_players reg pc probeOk entries by_id save = Except.ok res) :
    res.Pairwise (fun a b => b.leaguePoints ≤ a.leaguePoints) := by
  simp only [load_players] at h
  split_ifs at h <;> try simp at h
  cases hl : lp_loop by_id (entries.take pc.toNat) none [] with
  | error e =>
    rw [hl] at h
    simp at h
  | ok rows =>
    rw [hl] at h
    cases save with
    | none =>
      simp only [Except.ok.injEq] at h
      rw [← h]
      exact pySortDescLP_sorted rows
    | some b2 =>
      simp only [Except.ok.injEq] at h
      rw [← h]
      exact pySortDescLP_sorted rows

/-- C9, witness: the spec example with league points [50, 200, 100] comes
out in the order [200, 100, 50], and that output is sorted descending. -/
theorem claim_c9_witness :
    load_players "na1" 3 true
      [⟨"s1", "A", 50⟩, ⟨"s2", "B", 200⟩, ⟨"s3", "C", 100⟩]
      (fun s => some ⟨"pu" ++ s, "ac" ++ s⟩) none
      = Except.ok [⟨"pus2", "acs2", "s2", "B", 200⟩,
          ⟨"pus3", "acs3", "s3", "C", 100⟩, ⟨"pus1", "acs1", "s1", "A", 50⟩]
    ∧ ([⟨"pus2", "acs2", "s2", "B", 200⟩, ⟨"pus3", "acs3", "s3", "C", 100⟩,
        ⟨"pus1", "acs1", "s1", "A", 50⟩] : List PlayerRow).Pairwise
        (fun a b => b.leaguePoints ≤ a.leaguePoints) :=
  ⟨by decide, claim_c9_sorted_desc "na1" 3 true
    [⟨"s1", "A", 50⟩, ⟨"s2", "B", 200⟩, ⟨"s3", "C", 100⟩]
    (fun s => some ⟨"pu" ++ s, "ac" ++ s⟩) none _ (by decide)⟩

/-- C1, counterexample: the claim states that no matchId is fetched via the
match-detail call more than once in a crawl run.  When the detail call for
an id fails, the id is not added to `searched_matches` (the break at
crawl.py line 209 precedes the append at line 225), so a later player
listing the same id triggers a second match-detail call: with players A and
B both listing M and the detail lookup for M failing, M is detail-fetched
twice in the run. -/
theorem claim_c1_counterexample :
    countGM (load_matches "na1" 0 ["A", "B"] (some 1) 1 true
      ⟨fun _ => some ["M"], fun _ => none⟩ 0 (fun _ => 0) none).2.2 "M"
      = 2 ∧ ¬ (2 : Nat) ≤ 1 := by decide

/-- C1, amended: for every crawl run of `load_matches`, the searched-match
set contains no duplicate matchIds; every matchId whose match-detail lookup
succeeds is detail-fetched at most once, even when listed by two different
seed players (only an id whose detail call fails can be re-attempted for a
later player); and the keys of the returned result mapping are exactly the
searched set, so each matchId appears at most once in the result. -/
theorem claim_c1_dedup_amended (reg : String) (date : Int) (ps : List String)
    (tl : Option Int) (now : Int) (probeOk : Bool) (o : CrawlOracle)
    (curr : Int) (clock : Nat → Int) (save : Option Bool) :
    (load_matches reg date ps tl now probeOk o curr clock save).2.1.Nodup
    ∧ (∀ id m, o.matchinfo id = some m →
        countGM (load_matches reg date ps tl now probeOk o curr clock
          save).2.2 id ≤ 1)
    ∧ (∀ md i, (load_matches reg date ps tl now probeOk o curr clock save).1
        = Except.ok (md, i) →
        md.map Prod.fst
          = (load_matches reg date ps tl now probeOk o curr clock
              save).2.1) := by
  by_cases hreg : reg ∈ regionAllowList
  · cases tl with
    | none =>
      have h : load_matches reg date ps none now probeOk o curr clock save
          = (Except.error PyError.typeErrorNoneComparison, [], []) := by
        simp only [load_matches]
        rw [if_neg (not_not_intro hreg)]
      rw [h]
      refine ⟨by simp, fun id m _ => by simp [countGM_nil], fun md i hh => ?_⟩
      simp at hh
    | some t =>
      by_cases htl : t > 0
      · by_cases hdate : date < now
        · by_cases hprobe : probeOk = true
          · subst hprobe
            rw [load_matches_run reg date ps t now o curr clock save hreg
              htl hdate]
            have hinv := crawl_loop_inv o (t * 3600) curr clock ps [] [] 0
              [ApiCall.probe] (by simp) (by simp)
              (fun id m _ => by simp [countGM_probe])
            refine ⟨hinv.1, fun id m hm => ?_, hinv.2.1⟩
            rw [hinv.2.2 id m hm]
            split_ifs <;> omega
          · have hp : probeOk = false := by
              cases probeOk
              · rfl
              · exact absurd rfl hprobe
            subst hp
            have h : load_matches reg date ps (some t) now false o curr
                clock save
                = (Except.error PyError.apiError, [], [ApiCall.probe]) := by
              simp only [load_matches]
              rw [if_neg (not_not_intro hreg), if_neg (not_not_intro htl),
                if_neg (not_not_intro hdate), if_pos (by simp)]
            rw [h]
            refine ⟨by simp, fun id m _ => by simp [countGM_probe],
              fun md i hh => ?_⟩
            simp at hh
        · have h : load_matches reg date ps (some t) now probeOk o curr
              clock save
              = (Except.error PyError.assertInvalidDate, [], []) := by
            simp only [load_matches]
            rw [if_neg (not_not_intro hreg), if_neg (not_not_intro htl),
              if_pos hdate]
          rw [h]
          refine ⟨by simp, fun id m _ => by simp [countGM_nil],
            fun md i hh => ?_⟩
          simp at hh
      · have h : load_matches reg date ps (some t) now probeOk o curr clock
            save = (Except.error PyError.assertInvalidTimeLimit, [], []) := by
          simp only [load_matches]
          rw [if_neg (not_not_intro hreg), if_pos htl]
        rw [h]
        refine ⟨by simp, fun id m _ => by simp [countGM_nil],
          fun md i hh => ?_⟩
        simp at hh
  · have h : load_matches reg date ps tl now probeOk o curr clock save
        = (Except.error PyError.assertInvalidRegion, [], []) := by
      simp only [load_matches]
      rw [if_pos hreg]
    rw [h]
    refine ⟨by simp, fun id m _ => by simp [countGM_nil],
      fun md i hh => ?_⟩
    simp at hh

/-- C1, witness for the amended theorem: players A and B both list match M
and its detail lookup succeeds; the trace carries exactly one detail call
for M, the searched set is the singleton [M] without duplicates, and the
result-mapping keys equal the searched set. -/
theorem claim_c1_witness :
    (["M"] : List String).Nodup
    ∧ countGM [ApiCall.probe, ApiCall.listMatches "A", ApiCall.getMatch "M",
        ApiCall.listMatches "B"] "M" ≤ 1
    ∧ ([("M", ([] : SerialisedMatch))]).map Prod.fst = ["M"] := by
  have hrun : load_matches "na1" 0 ["A", "B"] (some 1) 1 true
      ⟨fun _ => some ["M"], fun _ => some ⟨[]⟩⟩ 0 (fun _ => 0) none
      = (Except.ok ([("M", [])], 2), ["M"],
         [ApiCall.probe, ApiCall.listMatches "A", ApiCall.getMatch "M",
          ApiCall.listMatches "B"]) := by decide
  have h := claim_c1_dedup_amended "na1" 0 ["A", "B"] (some 1) 1 true
    ⟨fun _ => some ["M"], fun _ => some ⟨[]⟩⟩ 0 (fun _ => 0) none
  rw [hrun] at h
  exact ⟨h.1, h.2.1 "M" ⟨[]⟩ rfl, h.2.2 [("M", [])] 2 rfl⟩

/-- C2: for every crawl run of `load_matches` whose arguments pass the
validations, if the time budget elapses exactly at the check after player
`k` (all earlier checks are under budget) and the listings of players
`1..k` succeed, then the run equals the run on the first `k` players alone
(so the result contains exactly the matches discovered from players
`1..k`), it returns `Except.ok` (graceful termination, not an error)
carrying the processed-player count `k`, and the trace contains no listing
call for any player outside the first `k`. -/
theorem claim_c2_time_budget (reg : String) (date : Int) (ps : List String)
    (tl : Int) (now : Int) (o : CrawlOracle) (curr : Int)
    (clock : Nat → Int) (save : Option Bool) (k : Nat)
    (hreg : reg ∈ regionAllowList) (htl : tl > 0) (hdate : date < now)
    (hk : 1 ≤ k) (hkn : k ≤ ps.length)
    (hbefore : ∀ j, 1 ≤ j → j < k → clock j - curr < tl * 3600)
    (hat : clock k - curr ≥ tl * 3600)
    (hlist : ∀ p ∈ ps.take k, o.matchlist p ≠ none) :
    load_matches reg date ps (some tl) now true o curr clock save
      = load_matches reg date (ps.take k) (some tl) now true o curr clock
          save
    ∧ (∃ md s2 tr,
        load_matches reg date ps (some tl) now true o curr clock save
          = (Except.ok (md, k), s2, tr)
        ∧ ∀ p, ApiCall.listMatches p ∈ tr → p ∈ ps.take k) := by
  have haux := crawl_loop_budget_take o (tl * 3600) curr clock k hat hbefore
    ps [] [] 0 [ApiCall.probe] (by omega) (by simpa using hkn)
    (by simpa using hlist)
  rw [Nat.sub_zero] at haux
  obtain ⟨heqtake, md2, s2, tr2, heq⟩ := haux
  have htk : crawl_loop o (tl * 3600) curr clock (ps.take k) [] [] 0
      [ApiCall.probe] = (Except.ok (md2, k), s2, tr2) := by
    rw [← heqtake]
    exact heq
  refine ⟨?_, md2, s2, tr2, ?_, ?_⟩
  · rw [load_matches_run reg date ps tl now o curr clock save hreg htl
      hdate,
      load_matches_run reg date (ps.take k) tl now o curr clock save hreg
      htl hdate]
    exact heqtake
  · rw [load_matches_run reg date ps tl now o curr clock save hreg htl
      hdate]
    exact heq
  · intro p hp
    have hmem : ApiCall.listMatches p ∈ (crawl_loop o (tl * 3600) curr clock
        (ps.take k) [] [] 0 [ApiCall.probe]).2.2 := by
      rw [htk]
      exact hp
    rcases crawl_loop_trace_listMatches o (tl * 3600) curr clock (ps.take k)
      [] [] 0 [ApiCall.probe] p hmem with hin | hin
    · simp at hin
    · exact hin

/-- C2, witness: three seed players with the budget elapsing at the check
after the second player: the run equals the run on the first two players
alone. -/
theorem claim_c2_witness :
    (∀ j, 1 ≤ j → j < 2 →
      (if j ≤ 1 then (0 : Int) else 4000) - 0 < 1 * 3600)
    ∧ load_matches "na1" 0 ["A", "B", "C"] (some 1) 1 true
        ⟨fun _ => some [], fun _ => none⟩ 0
        (fun j => if j ≤ 1 then (0 : Int) else 4000) none
      = load_matches "na1" 0 ["A", "B"] (some 1) 1 true
        ⟨fun _ => some [], fun _ => none⟩ 0
        (fun j => if j ≤ 1 then (0 : Int) else 4000) none := by
  have hb : ∀ j, 1 ≤ j → j < 2 →
      (if j ≤ 1 then (0 : Int) else 4000) - 0 < 1 * 3600 := by
    intro j h1 h2
    have hj : j = 1 := by omega
    subst hj
    norm_num
  refine ⟨hb, ?_⟩
  have h := claim_c2_time_budget "na1" 0 ["A", "B", "C"] 1 1
    ⟨fun _ => some [], fun _ => none⟩ 0
    (fun j => if j ≤ 1 then (0 : Int) else 4000) none 2 (by decide)
    (by decide) (by decide) (by decide) (by decide) hb (by decide)
    (by decide)
  exact h.1

/-- C3: in a per-player sub-crawl whose candidate list is
`pre ++ c :: post`, if the loop reaches candidate `c` (no earlier break,
`c` not yet searched) and the match-detail fetch for `c` fails, then:
the sub-crawl returns exactly the records and searched ids accumulated over
`pre` (already-fetched records are kept) and its trace ends at the failed
call for `c`; the crawl continues with the next player, merging those
records; and no candidate other than the members of `pre` and `c` itself is
ever detail-fetched, so the candidates after `c` are never attempted. -/
theorem claim_c3_detail_failure_fail_fast (o : CrawlOracle) (puuid : String)
    (pre post : List String) (c : String) (rest : List String)
    (b curr : Int) (clock : Nat → Int) (searched : List String)
    (md : List (String × SerialisedMatch)) (i : Nat) (tr : List ApiCall)
    (hml : o.matchlist puuid = some (pre ++ c :: post))
    (hok : sub_loop_ok o.matchinfo pre searched = true)
    (hc_new : c ∉ (sub_loop o.matchinfo pre [] searched []).2.1)
    (hc_fail : o.matchinfo c = none)
    (hb : ¬ clock (i + 1) - curr ≥ b) :
    load_matches_from_player o puuid searched
      = (some ((sub_loop o.matchinfo pre [] searched []).1,
          (sub_loop o.matchinfo pre [] searched []).2.1),
         ApiCall.listMatches puuid ::
           ((sub_loop o.matchinfo pre [] searched []).2.2 ++
             [ApiCall.getMatch c]))
    ∧ crawl_loop o b curr clock (puuid :: rest) searched md i tr
      = crawl_loop o b curr clock rest
          (sub_loop o.matchinfo pre [] searched []).2.1
          (dictUnion md (sub_loop o.matchinfo pre [] searched []).1) (i + 1)
          (tr ++ (ApiCall.listMatches puuid ::
            ((sub_loop o.matchinfo pre [] searched []).2.2 ++
              [ApiCall.getMatch c])))
    ∧ (∀ d, ApiCall.getMatch d ∈ (ApiCall.listMatches puuid ::
        ((sub_loop o.matchinfo pre [] searched []).2.2 ++
          [ApiCall.getMatch c])) → d ∈ pre ∨ d = c) := by
  have hB : sub_loop o.matchinfo (c :: post) []
      (sub_loop o.matchinfo pre [] searched []).2.1 []
      = ([], (sub_loop o.matchinfo pre [] searched []).2.1,
         [ApiCall.getMatch c]) := by
    simp only [sub_loop, if_neg hc_new, hc_fail, List.nil_append]
  have hR : sub_loop o.matchinfo (pre ++ c :: post) [] searched []
      = ((sub_loop o.matchinfo pre [] searched []).1,
         (sub_loop o.matchinfo pre [] searched []).2.1,
         (sub_loop o.matchinfo pre [] searched []).2.2 ++
           [ApiCall.getMatch c]) := by
    rw [sub_loop_append_ok o.matchinfo (c :: post) pre searched hok, hB]
    simp
  refine ⟨?_, ?_, ?_⟩
  · simp only [load_matches_from_player, hml, hR]
  · rw [crawl_loop_cons_some o b curr clock puuid rest searched md i tr
      (pre ++ c :: post) hml, hR, if_neg hb]
  · intro d hd
    simp only [List.mem_cons, List.mem_append, List.mem_singleton] at hd
    rcases hd with hd | hd | hd
    · cases hd
    · obtain ⟨e, he, heq⟩ := sub_loop_trace o.matchinfo pre searched _ hd
      simp only [ApiCall.getMatch.injEq] at heq
      subst heq
      exact Or.inl he
    · simp only [ApiCall.getMatch.injEq] at hd
      rcases hd with hd | hd
      · exact Or.inr hd
      · simp at hd

/-- C3, witness: the spec example with five candidates and the detail fetch
failing at the third: the sub-crawl keeps the two fetched records, the
trace stops at the failed third call, and the crawl recurses on the next
player with the merged state. -/
theorem claim_c3_witness :
    sub_loop_ok (fun id => if id = "M3" then none
        else some ⟨[]⟩) ["M1", "M2"] [] = true
    ∧ load_matches_from_player
        ⟨fun _ => some ["M1", "M2", "M3", "M4", "M5"],
         fun id => if id = "M3" then none else some ⟨[]⟩⟩ "A" []
      = (some ([("M1", []), ("M2", [])], ["M1", "M2"]),
         [ApiCall.listMatches "A", ApiCall.getMatch "M1",
          ApiCall.getMatch "M2", ApiCall.getMatch "M3"]) := by
  have h := claim_c3_detail_failure_fail_fast
    ⟨fun _ => some ["M1", "M2", "M3", "M4", "M5"],
     fun id => if id = "M3" then none else some ⟨[]⟩⟩ "A"
    ["M1", "M2"] ["M4", "M5"] "M3" ["B"] 3600 0 (fun _ => 0) [] [] 0 []
    (by decide) (by decide) (by decide) (by decide) (by decide)
  exact ⟨by decide, h.1⟩

/-- C8, counterexample: the claim states that building the directory from
match rows and processing the same rows with noise rate zero makes every
slot whose original name is the literal unknown token resolve to the
sentinel key 0.  The sentinel row is prepended without deduplication
against data rows (process_lol_data.py lines 54-55), so a raw row whose
slot is literally named the unknown token with a real identity yields two
directory rows named alike, and the name join attaches both key 0 and the
non-sentinel key 1 to that slot: its key list is [0, 1], not [0]. -/
theorem claim_c8_counterexample :
    process_player_data_from_matches
      [(⟨"<U>", "x", "y", 1, true⟩ : Slot) ::
        List.replicate 9 ⟨"A", "pa", "sa", 2, false⟩] none true
      = Except.ok [⟨"<U>", "0", "0"⟩, ⟨"<U>", "x", "y"⟩, ⟨"A", "pa", "sa"⟩]
    ∧ process_match_data
      [(⟨"<U>", "x", "y", 1, true⟩ : Slot) ::
        List.replicate 9 ⟨"A", "pa", "sa", 2, false⟩]
      [⟨"<U>", "0", "0"⟩, ⟨"<U>", "x", "y"⟩, ⟨"A", "pa", "sa"⟩] 0
      (fun _ => none) true (fun _ _ => false) none
      = Except.ok [(⟨"<U>", [0, 1], 1, none, true⟩ : ProcSlot) ::
          List.replicate 9 ⟨"A", [2], 2, none, false⟩]
    ∧ ([0, 1] : List Nat) ≠ [0] :=
  ⟨by decide, by decide, by decide⟩

/-- C8, amended: for any match rows, building the player directory from the
rows and processing the same rows with noise rate zero resolves every
slot key (no slot joins to nothing, hence no null key); a slot whose
original name is the literal unknown token always matches the sentinel
key 0 first, though it may match further non-sentinel directory rows when
the raw rows themselves contain that literal name; and a slot with any
other name never resolves to the sentinel key. -/
theorem claim_c8_roundtrip_amended (rows : List (List Slot))
    (dir : List Triple) (tbl : List (List ProcSlot))
    (cm : Int → Option String)
    (hdir : process_player_data_from_matches rows none true = Except.ok dir)
    (htbl : process_match_data rows dir 0 cm true (fun _ _ => false) none
      = Except.ok tbl) :
    ∀ pr ∈ tbl, ∀ q ∈ pr,
      q.keys ≠ []
      ∧ (q.name = "<U>" → q.keys.head? = some 0)
      ∧ (q.name ≠ "<U>" → 0 ∉ q.keys) := by
  simp only [process_player_data_from_matches] at hdir
  split_ifs at hdir with hlen
  case pos =>
    simp only [Except.ok.injEq] at hdir
    have hall : ∀ r ∈ rows, r.length = 10 := by
      intro r hr
      have := List.all_eq_true.mp hlen r hr
      simpa using this
    subst hdir
    simp only [process_match_data] at htbl
    rw [if_neg (by norm_num), if_neg (by simp),
      if_neg (not_not_intro hlen)] at htbl
    simp only [Except.ok.injEq] at htbl
    rw [processTbl_noNoise] at htbl
    subst htbl
    intro pr hpr q hq
    rw [List.mem_map] at hpr
    obtain ⟨r, hr, hpr⟩ := hpr
    subst hpr
    rw [List.mem_map] at hq
    obtain ⟨s, hs, hq⟩ := hq
    subst hq
    obtain ⟨n, hn⟩ := List.get?_of_mem hs
    have hlt : n < 10 := by
      have hnl := (List.get?_eq_some.mp hn).1
      rw [hall r hr] at hnl
      exact hnl
    have hmemD : slotTriple s ∈
        unknownTriple :: dedupFirst (combinedTriples rows) :=
      List.mem_cons_of_mem _
        (mem_dedupFirst _ _ (mem_combinedTriples rows r hr n s hn hlt))
    refine ⟨?_, ?_, ?_⟩
    · exact keysFor_ne_nil _ s.name 0 ⟨slotTriple s, hmemD, rfl⟩
    · intro hname
      have hname2 : s.name = "<U>" := hname
      refine keysFor_head_cons unknownTriple _ s.name ?_
      rw [hname2]
      rfl
    · intro hname
      have hname2 : ¬ s.name = "<U>" := hname
      refine zero_not_mem_keysFor_cons unknownTriple _ s.name ?_
      intro hh
      exact hname2 hh.symm

/-- C8, witness for the amended theorem: one row of ten identical named
slots round-trips to a table whose slots all carry the resolved
non-sentinel key 1. -/
theorem claim_c8_witness :
    process_player_data_from_matches
      [List.replicate 10 (⟨"A", "pa", "sa", 2, false⟩ : Slot)] none true
      = Except.ok [⟨"<U>", "0", "0"⟩, ⟨"A", "pa", "sa"⟩]
    ∧ (⟨"A", [1], 2, none, false⟩ : ProcSlot).keys ≠ [] := by
  have hdir : process_player_data_from_matches
      [List.replicate 10 (⟨"A", "pa", "sa", 2, false⟩ : Slot)] none true
      = Except.ok [⟨"<U>", "0", "0"⟩, ⟨"A", "pa", "sa"⟩] := by decide
  have htbl : process_match_data
      [List.replicate 10 (⟨"A", "pa", "sa", 2, false⟩ : Slot)]
      [⟨"<U>", "0", "0"⟩, ⟨"A", "pa", "sa"⟩] 0 (fun _ => none) true
      (fun _ _ => false) none
      = Except.ok [List.replicate 10
          (⟨"A", [1], 2, none, false⟩ : ProcSlot)] := by decide
  have h := claim_c8_roundtrip_amended
    [List.replicate 10 (⟨"A", "pa", "sa", 2, false⟩ : Slot)]
    [⟨"<U>", "0", "0"⟩, ⟨"A", "pa", "sa"⟩]
    [List.replicate 10 (⟨"A", [1], 2, none, false⟩ : ProcSlot)]
    (fun _ => none) hdir htbl
  exact ⟨hdir, (h (List.replicate 10 (⟨"A", [1], 2, none, false⟩ : ProcSlot))
    (by decide) (⟨"A", [1], 2, none, false⟩ : ProcSlot) (by decide)).1⟩
